import Mathlib

/-
Verification of SentinelNet (al-chris/SentinelNet) core algorithms:
a shallow embedding of the clip-extraction scan and merge
(`MotionDetector._find_motion_ranges`), the clip writer
(`MotionDetector._create_motion_clip`), the motion window buffer
(`MotionDetector.process_frame` / `_process_current_segment`), the
segment-bucket computation (`SecuritySystem.process_continuous_recording`),
frame ingestion (`SecuritySystem.update_frame`), and the upload framing
paths (`upload_stream`), together with proofs of the specified properties.
Byte strings are modelled as `List Nat`, machine ints as `Int`/`Nat` with
Python's `max(0, a - b)` rendered as truncated `Nat` subtraction.
-/

namespace SentinelNet

/-- Python slice `xs[a:b]` for lists (empty when `b ≤ a`). -/
def pySlice (xs : List Bool) (a b : Nat) : List Bool :=
  (xs.drop a).take (b - a)

/-- The main loop of `MotionDetector._find_motion_ranges`
(`for i, has_motion in enumerate(motion_frames)` in
src/app/motion_detector.py lines 198-213).  `flags` is the full
`motion_frames` list (used for the slice `motion_frames[i-w:i]`), the list
argument is the not-yet-visited tail, `i` the current index, and the state
is `(in_motion, start_idx, ranges)`.  `buffer_frames` is `b`,
`min_recording_frames` is `m`.  Python's `max(0, i - b)` on ints equals
truncated subtraction `i - b` on `Nat`; `end_idx - start_idx + 1` is
computed in `Int` exactly as Python computes it on ints. -/
def findLoop (flags : List Bool) (b m : Nat) :
    List Bool → Nat → Bool → Nat → List (Nat × Nat) → Bool × Nat × List (Nat × Nat)
  | [], _i, inMotion, startIdx, ranges => (inMotion, startIdx, ranges)
  | hasMotion :: rest, i, inMotion, startIdx, ranges =>
    if hasMotion && !inMotion then
      -- start of motion: go back buffer_frames if possible
      findLoop flags b m rest (i + 1) true (i - b) ranges
    else if !hasMotion && inMotion then
      -- check if we've had no motion for buffer_frames
      let w := min b i
      if w ≤ i ∧ (pySlice flags (i - w) i).any id = false then
        -- end motion sequence, include buffer after
        let endIdx := min (flags.length - 1) (i + b)
        -- only save if long enough
        if (m : Int) ≤ (endIdx : Int) - (startIdx : Int) + 1 then
          findLoop flags b m rest (i + 1) false startIdx (ranges ++ [(startIdx, endIdx)])
        else
          findLoop flags b m rest (i + 1) false startIdx ranges
      else
        findLoop flags b m rest (i + 1) inMotion startIdx ranges
    else
      findLoop flags b m rest (i + 1) inMotion startIdx ranges

/-- The scan phase of `_find_motion_ranges`: run `findLoop` over the whole
flag list and close a still-open motion run at the last index
(src/app/motion_detector.py lines 194-220), before merging. -/
def scanRanges (b m : Nat) (flags : List Bool) : List (Nat × Nat) :=
  let res := findLoop flags b m flags 0 false 0 []
  if res.1 then
    let endIdx := flags.length - 1
    if (m : Int) ≤ (endIdx : Int) - (res.2.1 : Int) + 1 then
      res.2.2 ++ [(res.2.1, endIdx)]
    else res.2.2
  else res.2.2

/-- The merge loop of `_find_motion_ranges`
(src/app/motion_detector.py lines 224-235): `last` is `merged_ranges[-1]`,
`accRev` the earlier merged ranges in reverse order, and the list argument
is `ranges[1:]` still to be walked. -/
def mergeLoop : Nat × Nat → List (Nat × Nat) → List (Nat × Nat) → List (Nat × Nat)
  | last, accRev, [] => (last :: accRev).reverse
  | last, accRev, cur :: rest =>
    if cur.1 ≤ last.2 then
      -- overlapping ranges, merge them
      mergeLoop (last.1, max last.2 cur.2) accRev rest
    else
      -- non-overlapping, add as new range
      mergeLoop cur (last :: accRev) rest

/-- The merge step of `_find_motion_ranges`
(src/app/motion_detector.py lines 222-237). -/
def mergeRanges : List (Nat × Nat) → List (Nat × Nat)
  | [] => []
  | r :: rs => mergeLoop r [] rs

/-- `MotionDetector._find_motion_ranges`: scan then merge. -/
def find_motion_ranges (b m : Nat) (flags : List Bool) : List (Nat × Nat) :=
  mergeRanges (scanRanges b m flags)

/-- The scan loop exactly as the specification words it (spec.md §4.5 step 2):
motion starts at index `i` when the flag is true and the scanner is not in
motion, setting `start = max(0, i - buffer_frames)`; motion ends at an index
`i` where the flag is false, the scanner is in motion, and the preceding
`min(buffer_frames, i)` flags are all false, setting
`end = min(len - 1, i + buffer_frames)` and recording `(start, end)` iff
`end - start + 1 ≥ min_recording_frames`.  This is the claim-side definition
for the refinement comparison with `findLoop`. -/
def specScanLoop (flags : List Bool) (b m : Nat) :
    List Bool → Nat → Bool → Nat → List (Nat × Nat) → Bool × Nat × List (Nat × Nat)
  | [], _i, inMotion, startIdx, ranges => (inMotion, startIdx, ranges)
  | hasMotion :: rest, i, inMotion, startIdx, ranges =>
    if hasMotion = true ∧ inMotion = false then
      specScanLoop flags b m rest (i + 1) true (i - b) ranges
    else if hasMotion = false ∧ inMotion = true then
      if (pySlice flags (i - min b i) i).all (fun x => !x) = true then
        let endIdx := min (flags.length - 1) (i + b)
        if (m : Int) ≤ (endIdx : Int) - (startIdx : Int) + 1 then
          specScanLoop flags b m rest (i + 1) false startIdx (ranges ++ [(startIdx, endIdx)])
        else
          specScanLoop flags b m rest (i + 1) false startIdx ranges
      else
        specScanLoop flags b m rest (i + 1) inMotion startIdx ranges
    else
      specScanLoop flags b m rest (i + 1) inMotion startIdx ranges

/-- The complete scan as the specification words it: run `specScanLoop`
and, if still in motion when the scan finishes, close the interval at the
last index under the same minimum-length check (spec.md §4.5 step 2). -/
def specScanRanges (b m : Nat) (flags : List Bool) : List (Nat × Nat) :=
  let res := specScanLoop flags b m flags 0 false 0 []
  if res.1 then
    let endIdx := flags.length - 1
    if (m : Int) ≤ (endIdx : Int) - (res.2.1 : Int) + 1 then
      res.2.2 ++ [(res.2.1, endIdx)]
    else res.2.2
  else res.2.2

/-- `MotionDetector._create_motion_clip` (src/app/motion_detector.py lines
239-267), abstracting the video writer: `none` means the clip was skipped
after the guard `if not frames or start_idx >= len(frames) or
start_idx > end_idx`, and `some ws` means exactly the frames
`frames[i]` for `i in range(start_idx, min(end_idx + 1, len(frames)))`
were written. -/
def createMotionClip {α : Type} (frames : List α) (startIdx endIdx : Nat) :
    Option (List α) :=
  if frames.length = 0 ∨ frames.length ≤ startIdx ∨ endIdx < startIdx then
    none
  else
    some ((frames.drop startIdx).take (min (endIdx + 1) frames.length - startIdx))

/-- A wall-clock time as `datetime` fields used by
`SecuritySystem.process_continuous_recording`. -/
structure WallTime where
  hour : Nat
  minute : Nat
  second : Nat
  microsecond : Nat
deriving DecidableEq, Repr

/-- The segment-bucket computation of
`SecuritySystem.process_continuous_recording` (src/app/main.py lines
210-213): `now.replace(second=0, microsecond=0)` then
`minute = (minute // recording_segment_minutes) * recording_segment_minutes`. -/
def segmentBucket (recording_segment_minutes : Nat) (now : WallTime) : WallTime :=
  let t := { now with second := 0, microsecond := 0 }
  { t with minute := t.minute / recording_segment_minutes * recording_segment_minutes }

/-- The per-device buffer state of `MotionDetector` that
`process_frame` and `_process_current_segment` mutate:
`frame_buffer`, `motion_frames`, `frame_count`, and the capacity
`segment_frames`.  Frames are abstracted by the type `φ`. -/
structure DetState (φ : Type) where
  frame_buffer : List φ
  motion_frames : List Bool
  frame_count : Nat
  segment_frames : Nat

/-- `MotionDetector._process_current_segment` (src/app/motion_detector.py
lines 349-365): copy both buffers out as a task, reset both buffers and the
counter. -/
def processCurrentSegment {φ : Type} (s : DetState φ) :
    DetState φ × (List φ × List Bool) :=
  ({ s with frame_buffer := [], motion_frames := [], frame_count := 0 },
   (s.frame_buffer, s.motion_frames))

/-- The buffer mutation of `MotionDetector.process_frame`
(src/app/motion_detector.py lines 293-297 and 343-345): append the frame
copy and its motion flag, increment the counter, then hand the segment off
when `frame_count >= segment_frames`.  The motion flag produced by the
external detection capability is the parameter `motion`; the returned
`Option` is the submitted segment task, if any. -/
def process_frame {φ : Type} (s : DetState φ) (frame : φ) (motion : Bool) :
    DetState φ × Option (List φ × List Bool) :=
  let s1 := { s with
    frame_buffer := s.frame_buffer ++ [frame],
    motion_frames := s.motion_frames ++ [motion],
    frame_count := s.frame_count + 1 }
  if s1.segment_frames ≤ s1.frame_count then
    let res := processCurrentSegment s1
    (res.1, some res.2)
  else
    (s1, none)

/-- The invariant claimed for the motion detector buffers:
both lists and the counter stay in lockstep. -/
def bufInv {φ : Type} (s : DetState φ) : Prop :=
  s.frame_buffer.length = s.motion_frames.length ∧
  s.frame_buffer.length = s.frame_count

/-- The JPEG start-of-image marker `FF D8` as a byte list. -/
def jpegStartMarker : List Nat := [0xff, 0xd8]

/-- The JPEG end-of-image marker `FF D9` as a byte list. -/
def jpegEndMarker : List Nat := [0xff, 0xd9]

/-- Python `bytes.find` for a pattern, scanning left to right: the list
argument is the remaining suffix and `i` the absolute index of its head. -/
def findAux (pat : List Nat) : List Nat → Nat → Option Nat
  | [], _ => none
  | y :: t, i =>
    if (y :: t).take pat.length = pat then some i
    else findAux pat t (i + 1)

/-- Python `frame_data.find(pat)`, with `-1` rendered as `none`. -/
def pyFind (xs pat : List Nat) : Option Nat := findAux pat xs 0

/-- Python `bytes.rfind` for a pattern: prefer a match further right. -/
def rfindAux (pat : List Nat) : List Nat → Nat → Option Nat
  | [], _ => none
  | y :: t, i =>
    match rfindAux pat t (i + 1) with
    | some j => some j
    | none => if (y :: t).take pat.length = pat then some i else none

/-- Python `frame_data.rfind(pat)`, with `-1` rendered as `none`. -/
def pyRfind (xs pat : List Nat) : Option Nat := rfindAux pat xs 0

/-- The per-part payload narrowing of the multipart branch of
`upload_stream` (src/app/main.py lines 565-570): `jpeg_start =
frame_data.find(b'\xff\xd8')`, `jpeg_end = frame_data.rfind(b'\xff\xd9')`;
a frame is passed onward only when both are found and `jpeg_end >
jpeg_start`, and then the payload is `frame_data[jpeg_start:jpeg_end+2]`. -/
def processPart (frame_data : List Nat) : Option (List Nat) :=
  match pyFind frame_data jpegStartMarker, pyRfind frame_data jpegEndMarker with
  | some js, some je =>
    if js < je then some ((frame_data.drop js).take (je + 2 - js)) else none
  | _, _ => none

/-- The two-byte pattern `pat` occurs in `xs` at index `i` (every byte of
the pattern is present, in order, starting at `i`). -/
def MatchesAt (xs pat : List Nat) (i : Nat) : Prop :=
  (xs.drop i).take pat.length = pat

/-- Index `i` is the first occurrence of `pat` in `xs`. -/
def FirstOccAt (xs pat : List Nat) (i : Nat) : Prop :=
  MatchesAt xs pat i ∧ ∀ j < i, ¬ MatchesAt xs pat j

/-- Index `i` is the last occurrence of `pat` in `xs`. -/
def LastOccAt (xs pat : List Nat) (i : Nat) : Prop :=
  MatchesAt xs pat i ∧ ∀ j, MatchesAt xs pat j → j ≤ i

/-- Python `data.startswith(pat)` on byte strings. -/
def startsWithBytes (data pat : List Nat) : Bool :=
  decide (data.take pat.length = pat)

/-- Python `data.endswith(pat)` on byte strings (false whenever
`data` is shorter than `pat`). -/
def endsWithBytes (data pat : List Nat) : Bool :=
  decide (pat.length ≤ data.length ∧ data.drop (data.length - pat.length) = pat)

/-- The mutable fields of a `Device` record touched by ingestion
(src/app/main.py lines 28-34, 177-179). -/
structure DeviceRec where
  last_seen : Nat
  status : String
  motion_detection : Bool
deriving DecidableEq, Repr

/-- Update (or insert) the entry for key `k` in an association list,
modelling Python dict assignment `d[k] = v`. -/
def setEntry {β : Type} (k : String) (v : β) : List (String × β) → List (String × β)
  | [] => [(k, v)]
  | (k', v') :: rest =>
    if k' = k then (k, v) :: rest else (k', v') :: setEntry k v rest

/-- The `SecuritySystem` state touched by `update_frame`
(src/app/main.py lines 70-99): the per-device frame store, the device
registry, the two configuration switches, and the continuous-recording and
motion-detection substates (abstracted by types `ρ` and `μ`, since the
claims only assert whether they change). -/
structure SysState (ρ μ : Type) where
  frames : List (String × List Nat)
  devices : List (String × DeviceRec)
  continuous_recording : Bool
  motion_detection : Bool
  recording : ρ
  motion : μ

/-- `SecuritySystem.update_frame` (src/app/main.py lines 165-199).
`now` is `datetime.now()` as an abstract tick; `decodable` is the external
codec (`cv2.imdecode` succeeding with a non-empty image); `procRec` and
`procMotion` are `process_continuous_recording` and
`process_motion_detection` acting on their substates. -/
def update_frame {ρ μ : Type} (now : Nat) (decodable : List Nat → Bool)
    (procRec : ρ → String → List Nat → ρ)
    (procMotion : μ → String → List Nat → μ)
    (s : SysState ρ μ) (device_id : String) (frame_data : List Nat) :
    SysState ρ μ :=
  -- only store the frame if it's valid JPEG data
  if ¬(startsWithBytes frame_data jpegStartMarker = true ∧
       endsWithBytes frame_data jpegEndMarker = true) then
    s
  else
    -- store the raw frame
    let s1 := { s with frames := setEntry device_id frame_data s.frames }
    -- update device information
    match s1.devices.lookup device_id with
    | none => s1
    | some d =>
      let d' := { d with last_seen := now, status := "online" }
      let s2 := { s1 with devices := setEntry device_id d' s1.devices }
      if decodable frame_data = false then
        -- failed to decode frame - skipping processing
        s2
      else
        let s3 :=
          if s2.continuous_recording then
            { s2 with recording := procRec s2.recording device_id frame_data }
          else s2
        if s3.motion_detection = true ∧ d'.motion_detection = true then
          { s3 with motion := procMotion s3.motion device_id frame_data }
        else s3

/-- The response value of the raw-JPEG branch of `upload_stream`;
the endpoint always returns one of these normally. -/
inductive UploadResp where
  | invalidData
  | success
  | decodeError
  | markerError
deriving DecidableEq, Repr

/-- The raw-JPEG (single-frame body) branch of `upload_stream`
(src/app/main.py lines 440-485): reject bodies shorter than 2 bytes,
require the `FF D8` / `FF D9` markers, try the codec, and only then hand
the body to `update_frame`. -/
def uploadRawJpeg {ρ μ : Type} (now : Nat) (decodable : List Nat → Bool)
    (procRec : ρ → String → List Nat → ρ)
    (procMotion : μ → String → List Nat → μ)
    (s : SysState ρ μ) (device_id : String) (raw_data : List Nat) :
    SysState ρ μ × UploadResp :=
  if raw_data.length < 2 then
    (s, .invalidData)
  else if startsWithBytes raw_data jpegStartMarker = true ∧
          endsWithBytes raw_data jpegEndMarker = true then
    if decodable raw_data = true then
      (update_frame now decodable procRec procMotion s device_id raw_data, .success)
    else
      (s, .decodeError)
  else
    (s, .markerError)

/-- A small concrete system state used to instantiate the ingestion
theorems: one registered device `"cam0"`, no stored frames. -/
def demoState : SysState Unit Unit :=
  { frames := []
    devices := [("cam0", { last_seen := 0, status := "offline", motion_detection := false })]
    continuous_recording := true
    motion_detection := true
    recording := ()
    motion := () }

/-- A byte payload that carries both JPEG markers but stands for data the
codec rejects. -/
def undecodablePayload : List Nat := [0xff, 0xd8, 0x00, 0xff, 0xd9]

/-- A small concrete detector state (capacity one frame) used to
instantiate the buffer-invariant theorem. -/
def demoDetState : DetState Nat :=
  { frame_buffer := [], motion_frames := [], frame_count := 0,
    segment_frames := 1 }

/-- C1: the claim predicts the interval `(0, 6)` for flags
`[F,F,T,F,F,F,F,F,F,F]` with `buffer_frames = 2` and
`min_recording_frames = 3`, but `_find_motion_ranges` returns `[(0, 7)]`:
the no-motion window check first passes at index 5 (the two preceding
flags, at indices 3 and 4, are false), so the end is padded to
`min(9, 5 + 2) = 7`, not 6. -/
theorem c1_counterexample :
    find_motion_ranges 2 3
      [false, false, true, false, false, false, false, false, false, false] ≠
      [(0, 6)] := by
  decide

/-- C1 (amended): for the flag list `[F,F,T,F,F,F,F,F,F,F]` with
`buffer_frames = 2` and `min_recording_frames = 3`, the clip-extraction
scan returns exactly one interval, namely `(0, 7)`: start padded back to
0, and end padded to `5 + 2 = 7`, where index 5 is the first index at
which the flag is false and the preceding `buffer_frames` flags are all
false. -/
theorem c1_theorem :
    find_motion_ranges 2 3
      [false, false, true, false, false, false, false, false, false, false] =
      [(0, 7)] := by
  decide

/-- Python's `not any(l)` coincides with "all flags in `l` are false". -/
theorem any_id_false_iff (l : List Bool) :
    (l.any id = false) ↔ (l.all (fun x => !x) = true) := by
  induction l with
  | nil => simp
  | cons x t ih => cases x <;> simp_all

/-- The source scan loop of `_find_motion_ranges` agrees, state for state,
with the loop as the specification words it. -/
theorem findLoop_eq_specScanLoop (flags : List Bool) (b m : Nat) :
    ∀ (rest : List Bool) (i : Nat) (inM : Bool) (st : Nat)
      (rs : List (Nat × Nat)),
      findLoop flags b m rest i inM st rs =
        specScanLoop flags b m rest i inM st rs := by
  intro rest
  induction rest with
  | nil => intro i inM st rs; rfl
  | cons hm t ih =>
    intro i inM st rs
    cases hm <;> cases inM
    · simp [findLoop, specScanLoop, ih]
    · -- flag false, in motion: the window conditions coincide
      have hiff : (b ⊓ i ≤ i ∧ (pySlice flags (i - b ⊓ i) i).any id = false) ↔
          (((pySlice flags (i - b ⊓ i) i).all fun x => !x) = true) :=
        ⟨fun h => (any_id_false_iff _).mp h.2,
         fun h => ⟨Nat.min_le_right b i, (any_id_false_iff _).mpr h⟩⟩
      simp only [findLoop, specScanLoop, ih]
      simp [hiff]
    · simp [findLoop, specScanLoop, ih]
    · simp [findLoop, specScanLoop, ih]

/-- C2: for every boolean flag list, the clip-extraction scan of
`_find_motion_ranges` (left to right, tracking an in-motion state, with
start padded to `max(0, i - buffer_frames)`, the end recorded at the first
false flag preceded by `min(buffer_frames, i)` false flags and padded to
`min(len - 1, i + buffer_frames)`, the minimum-length check on recording,
and the same closing rule at the end of the scan) computes exactly the
interval list described by the specification: the source scan
`scanRanges` equals the spec-worded scan `specScanRanges` on every input. -/
theorem c2_theorem : ∀ (b m : Nat) (flags : List Bool),
    scanRanges b m flags = specScanRanges b m flags := by
  intro b m flags
  unfold scanRanges specScanRanges
  rw [findLoop_eq_specScanLoop]

/-- Step equation: flag false, not in motion. -/
theorem findLoop_step_skip0 (flags t : List Bool) (b m i st : Nat)
    (rs : List (Nat × Nat)) :
    findLoop flags b m (false :: t) i false st rs =
      findLoop flags b m t (i + 1) false st rs := by
  rw [findLoop, if_neg (by decide), if_neg (by decide)]

/-- Step equation: flag true, not in motion — motion starts with the
start index padded back by `buffer_frames`. -/
theorem findLoop_step_enter (flags t : List Bool) (b m i st : Nat)
    (rs : List (Nat × Nat)) :
    findLoop flags b m (true :: t) i false st rs =
      findLoop flags b m t (i + 1) true (i - b) rs := by
  rw [findLoop, if_pos (by decide)]

/-- Step equation: flag true, already in motion. -/
theorem findLoop_step_stay (flags t : List Bool) (b m i st : Nat)
    (rs : List (Nat × Nat)) :
    findLoop flags b m (true :: t) i true st rs =
      findLoop flags b m t (i + 1) true st rs := by
  rw [findLoop, if_neg (by decide), if_neg (by decide)]

/-- Step equation: flag false, in motion, window clear, duration long
enough — the interval is recorded. -/
theorem findLoop_step_close (flags t : List Bool) (b m i st : Nat)
    (rs : List (Nat × Nat))
    (hw : min b i ≤ i ∧ (pySlice flags (i - min b i) i).any id = false)
    (hd : (m : Int) ≤ ((min (flags.length - 1) (i + b) : Nat) : Int) -
      (st : Int) + 1) :
    findLoop flags b m (false :: t) i true st rs =
      findLoop flags b m t (i + 1) false st
        (rs ++ [(st, min (flags.length - 1) (i + b))]) := by
  rw [findLoop, if_neg (by decide), if_pos (by decide)]
  show (if min b i ≤ i ∧ (pySlice flags (i - min b i) i).any id = false then
      if (m : Int) ≤ ((min (flags.length - 1) (i + b) : Nat) : Int) -
          (st : Int) + 1 then
        findLoop flags b m t (i + 1) false st
          (rs ++ [(st, min (flags.length - 1) (i + b))])
      else findLoop flags b m t (i + 1) false st rs
    else findLoop flags b m t (i + 1) true st rs) = _
  rw [if_pos hw, if_pos hd]

/-- Step equation: flag false, in motion, window clear, but the interval
is too short — it is dropped, and motion still ends. -/
theorem findLoop_step_short (flags t : List Bool) (b m i st : Nat)
    (rs : List (Nat × Nat))
    (hw : min b i ≤ i ∧ (pySlice flags (i - min b i) i).any id = false)
    (hd : ¬((m : Int) ≤ ((min (flags.length - 1) (i + b) : Nat) : Int) -
      (st : Int) + 1)) :
    findLoop flags b m (false :: t) i true st rs =
      findLoop flags b m t (i + 1) false st rs := by
  rw [findLoop, if_neg (by decide), if_pos (by decide)]
  show (if min b i ≤ i ∧ (pySlice flags (i - min b i) i).any id = false then
      if (m : Int) ≤ ((min (flags.length - 1) (i + b) : Nat) : Int) -
          (st : Int) + 1 then
        findLoop flags b m t (i + 1) false st
          (rs ++ [(st, min (flags.length - 1) (i + b))])
      else findLoop flags b m t (i + 1) false st rs
    else findLoop flags b m t (i + 1) true st rs) = _
  rw [if_pos hw, if_neg hd]

/-- Step equation: flag false, in motion, but the no-motion window is not
yet clear — the scanner stays in motion. -/
theorem findLoop_step_wait (flags t : List Bool) (b m i st : Nat)
    (rs : List (Nat × Nat))
    (hw : ¬(min b i ≤ i ∧ (pySlice flags (i - min b i) i).any id = false)) :
    findLoop flags b m (false :: t) i true st rs =
      findLoop flags b m t (i + 1) true st rs := by
  rw [findLoop, if_neg (by decide), if_pos (by decide)]
  show (if min b i ≤ i ∧ (pySlice flags (i - min b i) i).any id = false then
      if (m : Int) ≤ ((min (flags.length - 1) (i + b) : Nat) : Int) -
          (st : Int) + 1 then
        findLoop flags b m t (i + 1) false st
          (rs ++ [(st, min (flags.length - 1) (i + b))])
      else findLoop flags b m t (i + 1) false st rs
    else findLoop flags b m t (i + 1) true st rs) = _
  rw [if_neg hw]

/-- Invariants of the scan loop: the accumulated intervals are well
formed (`start ≤ end`, length at least `min_recording_frames`), sorted by
start, bounded by the scan position, and when the scanner is in motion the
pending start comes from a motion index before the scan position. -/
theorem findLoop_inv (flags : List Bool) (b m : Nat) :
    ∀ (rest : List Bool) (i : Nat) (inM : Bool) (st : Nat)
      (rs : List (Nat × Nat)),
      i + rest.length = flags.length →
      (∀ r ∈ rs, r.1 ≤ r.2 ∧ m ≤ r.2 - r.1 + 1) →
      List.Pairwise (fun p q => p.1 ≤ q.1) rs →
      (∀ r ∈ rs, r.1 ≤ i - b) →
      (inM = true → (∃ j, j < i ∧ st = j - b) ∧ ∀ r ∈ rs, r.1 ≤ st) →
      (∀ r ∈ (findLoop flags b m rest i inM st rs).2.2,
        r.1 ≤ r.2 ∧ m ≤ r.2 - r.1 + 1) ∧
      List.Pairwise (fun p q => p.1 ≤ q.1)
        (findLoop flags b m rest i inM st rs).2.2 ∧
      ((findLoop flags b m rest i inM st rs).1 = true →
        (∃ j, j < flags.length ∧
          (findLoop flags b m rest i inM st rs).2.1 = j - b) ∧
        ∀ r ∈ (findLoop flags b m rest i inM st rs).2.2,
          r.1 ≤ (findLoop flags b m rest i inM st rs).2.1) := by
  intro rest
  induction rest with
  | nil =>
    intro i inM st rs hlen hgood hpair hP3 hinM
    refine ⟨hgood, hpair, fun hM => ?_⟩
    obtain ⟨⟨j, hj, hst⟩, hall⟩ := hinM hM
    simp only [List.length_nil] at hlen
    exact ⟨⟨j, by omega, hst⟩, hall⟩
  | cons hm t ih =>
    intro i inM st rs hlen hgood hpair hP3 hinM
    simp only [List.length_cons] at hlen
    have hi : i < flags.length := by omega
    cases hm <;> cases inM
    · -- flag false, not in motion: skip
      rw [findLoop_step_skip0]
      exact ih (i + 1) false st rs (by omega) hgood hpair
        (fun r hr => by have := hP3 r hr; omega) (fun h => by simp at h)
    · -- flag false, in motion
      obtain ⟨⟨j, hj, hst⟩, hall⟩ := hinM rfl
      by_cases hw : (min b i ≤ i ∧ (pySlice flags (i - min b i) i).any id = false)
      · by_cases hd : ((m : Int) ≤
            ((min (flags.length - 1) (i + b) : Nat) : Int) - (st : Int) + 1)
        · rw [findLoop_step_close flags t b m i st rs hw hd]
          have hse : st ≤ min (flags.length - 1) (i + b) := by omega
          refine ih (i + 1) false st _ (by omega) ?_ ?_ ?_ (fun h => by simp at h)
          · intro r hr
            rcases List.mem_append.mp hr with h1 | h2
            · exact hgood r h1
            · simp only [List.mem_singleton] at h2
              subst h2
              exact ⟨hse, by omega⟩
          · rw [List.pairwise_append]
            refine ⟨hpair, by simp, ?_⟩
            intro a ha c hc
            simp only [List.mem_singleton] at hc
            subst hc
            exact hall a ha
          · intro r hr
            rcases List.mem_append.mp hr with h1 | h2
            · have := hP3 r h1; omega
            · simp only [List.mem_singleton] at h2
              subst h2
              simp only []
              omega
        · rw [findLoop_step_short flags t b m i st rs hw hd]
          exact ih (i + 1) false st rs (by omega) hgood hpair
            (fun r hr => by have := hP3 r hr; omega) (fun h => by simp at h)
      · rw [findLoop_step_wait flags t b m i st rs hw]
        exact ih (i + 1) true st rs (by omega) hgood hpair
          (fun r hr => by have := hP3 r hr; omega)
          (fun _ => ⟨⟨j, by omega, hst⟩, hall⟩)
    · -- flag true, not in motion: motion starts
      rw [findLoop_step_enter]
      exact ih (i + 1) true (i - b) rs (by omega) hgood hpair
        (fun r hr => by have := hP3 r hr; omega)
        (fun _ => ⟨⟨i, by omega, rfl⟩, hP3⟩)
    · -- flag true, in motion: skip
      obtain ⟨⟨j, hj, hst⟩, hall⟩ := hinM rfl
      rw [findLoop_step_stay]
      exact ih (i + 1) true st rs (by omega) hgood hpair
        (fun r hr => by have := hP3 r hr; omega)
        (fun _ => ⟨⟨j, by omega, hst⟩, hall⟩)

/-- The pre-merge scan output is well formed and sorted by start. -/
theorem scanRanges_inv (b m : Nat) (flags : List Bool) :
    (∀ r ∈ scanRanges b m flags, r.1 ≤ r.2 ∧ m ≤ r.2 - r.1 + 1) ∧
    List.Pairwise (fun p q => p.1 ≤ q.1) (scanRanges b m flags) := by
  obtain ⟨hgood, hpair, hinM⟩ := findLoop_inv flags b m flags 0 false 0 []
    (by simp) (by simp) (by simp) (by simp) (fun h => by simp at h)
  simp only [scanRanges]
  by_cases hb : (findLoop flags b m flags 0 false 0 []).1 = true
  · obtain ⟨⟨j, hj, hst⟩, hall⟩ := hinM hb
    rw [if_pos hb]
    by_cases hd : ((m : Int) ≤ ((flags.length - 1 : Nat) : Int) -
        ((findLoop flags b m flags 0 false 0 []).2.1 : Int) + 1)
    · rw [if_pos hd]
      constructor
      · intro r hr
        rcases List.mem_append.mp hr with h1 | h2
        · exact hgood r h1
        · simp only [List.mem_singleton] at h2
          subst h2
          have h1 : (findLoop flags b m flags 0 false 0 []).2.1 ≤
              flags.length - 1 := by omega
          exact ⟨h1, by omega⟩
      · rw [List.pairwise_append]
        refine ⟨hpair, by simp, fun a ha c hc => ?_⟩
        simp only [List.mem_singleton] at hc
        subst hc
        exact hall a ha
    · rw [if_neg hd]
      exact ⟨hgood, hpair⟩
  · rw [if_neg hb]
    exact ⟨hgood, hpair⟩

/-- Invariants of the merge loop: given well-formed input sorted by
start, the merged output is well formed and consecutive output intervals
are disjoint (each ends strictly before the next starts). -/
theorem mergeLoop_inv (m : Nat) :
    ∀ (rest : List (Nat × Nat)) (last : Nat × Nat) (accRev : List (Nat × Nat)),
      last.1 ≤ last.2 ∧ m ≤ last.2 - last.1 + 1 →
      (∀ r ∈ accRev, r.1 ≤ r.2 ∧ m ≤ r.2 - r.1 + 1) →
      (∀ r ∈ accRev, r.2 < last.1) →
      List.Pairwise (fun p q => q.2 < p.1) accRev →
      (∀ r ∈ rest, r.1 ≤ r.2 ∧ m ≤ r.2 - r.1 + 1) →
      (∀ r ∈ rest, last.1 ≤ r.1) →
      List.Pairwise (fun p q => p.1 ≤ q.1) rest →
      (∀ r ∈ mergeLoop last accRev rest, r.1 ≤ r.2 ∧ m ≤ r.2 - r.1 + 1) ∧
      List.Pairwise (fun p q => p.2 < q.1) (mergeLoop last accRev rest) := by
  intro rest
  induction rest with
  | nil =>
    intro last accRev hlast hacc hrel hchain _ _ _
    constructor
    · intro r hr
      simp only [mergeLoop, List.mem_reverse, List.mem_cons] at hr
      rcases hr with rfl | h
      · exact hlast
      · exact hacc r h
    · show List.Pairwise _ ((last :: accRev).reverse)
      rw [List.pairwise_reverse]
      exact List.pairwise_cons.mpr ⟨hrel, hchain⟩
  | cons cur rest ih =>
    intro last accRev hlast hacc hrel hchain hrgood hrge hrpair
    rw [mergeLoop]
    have hlc : last.1 ≤ cur.1 := hrge cur (by simp)
    by_cases hc : cur.1 ≤ last.2
    · rw [if_pos hc]
      refine ih (last.1, max last.2 cur.2) accRev ⟨?_, ?_⟩ hacc ?_ hchain
        (fun r hr => hrgood r (by simp [hr])) ?_
        (List.pairwise_cons.mp hrpair).2
      · simp only []
        omega
      · simp only []
        omega
      · intro r hr
        have := hrel r hr
        simp only []
        omega
      · intro r hr
        have h1 := (List.pairwise_cons.mp hrpair).1 r hr
        simp only []
        omega
    · rw [if_neg hc]
      refine ih cur (last :: accRev) (hrgood cur (by simp)) ?_ ?_ ?_
        (fun r hr => hrgood r (by simp [hr]))
        (List.pairwise_cons.mp hrpair).1
        (List.pairwise_cons.mp hrpair).2
      · intro r hr
        rcases List.mem_cons.mp hr with rfl | h
        · exact hlast
        · exact hacc r h
      · intro r hr
        rcases List.mem_cons.mp hr with rfl | h
        · omega
        · have := hrel r h
          omega
      · exact List.pairwise_cons.mpr ⟨hrel, hchain⟩

/-- The merge step sends a well-formed sorted list to a well-formed
disjoint list. -/
theorem mergeRanges_inv (m : Nat) (l : List (Nat × Nat))
    (hgood : ∀ r ∈ l, r.1 ≤ r.2 ∧ m ≤ r.2 - r.1 + 1)
    (hpair : List.Pairwise (fun p q => p.1 ≤ q.1) l) :
    (∀ r ∈ mergeRanges l, r.1 ≤ r.2 ∧ m ≤ r.2 - r.1 + 1) ∧
    List.Pairwise (fun p q => p.2 < q.1) (mergeRanges l) := by
  cases l with
  | nil => exact ⟨by simp [mergeRanges], by simp [mergeRanges]⟩
  | cons r rs =>
    rw [show mergeRanges (r :: rs) = mergeLoop r [] rs from rfl]
    exact mergeLoop_inv m rs r [] (hgood r (by simp)) (by simp) (by simp)
      (by simp) (fun x hx => hgood x (by simp [hx]))
      (List.pairwise_cons.mp hpair).1 (List.pairwise_cons.mp hpair).2

/-- C3: for every boolean flag list and every setting of `buffer_frames`
and `min_recording_frames`, every interval list returned by
`_find_motion_ranges` satisfies: each interval has `end_idx ≥ start_idx`
and length `end - start + 1 ≥ min_recording_frames`, the intervals are
sorted by start index, and they are pairwise disjoint (each interval ends
strictly before every later one starts). -/
theorem c3_theorem : ∀ (b m : Nat) (flags : List Bool),
    (∀ r ∈ find_motion_ranges b m flags, r.1 ≤ r.2 ∧ m ≤ r.2 - r.1 + 1) ∧
    List.Pairwise (fun p q => p.1 ≤ q.1) (find_motion_ranges b m flags) ∧
    List.Pairwise (fun p q => p.2 < q.1) (find_motion_ranges b m flags) := by
  intro b m flags
  obtain ⟨hg, hp⟩ := scanRanges_inv b m flags
  obtain ⟨hg2, hchain⟩ := mergeRanges_inv m (scanRanges b m flags) hg hp
  simp only [find_motion_ranges]
  refine ⟨hg2, List.Pairwise.imp_of_mem ?_ hchain, hchain⟩
  intro a c ha hc h
  have h1 := (hg2 a ha).1
  omega

/-- The merge loop leaves an already-disjoint tail untouched. -/
theorem mergeLoop_id :
    ∀ (rs : List (Nat × Nat)) (last : Nat × Nat) (accRev : List (Nat × Nat)),
      List.Chain' (fun p q => p.2 < q.1) (last :: rs) →
      mergeLoop last accRev rs = accRev.reverse ++ last :: rs := by
  intro rs
  induction rs with
  | nil => intro last accRev _; simp [mergeLoop]
  | cons cur rest ih =>
    intro last accRev h
    have h1 : last.2 < cur.1 := (List.chain'_cons.mp h).1
    rw [mergeLoop, if_neg (by omega), ih cur (last :: accRev)
      (List.chain'_cons.mp h).2]
    simp

/-- C4: the merge step of `_find_motion_ranges` is idempotent: on a list
that is already merged (sorted by start, consecutive intervals
non-overlapping under the merge condition `current_start <= prev_end`,
i.e. `prev_end < current_start`), running the merge step returns the same
list. -/
theorem c4_theorem (l : List (Nat × Nat))
    (hsorted : List.Pairwise (fun p q => p.1 ≤ q.1) l)
    (hdisj : List.Chain' (fun p q => p.2 < q.1) l) :
    mergeRanges l = l := by
  cases l with
  | nil => rfl
  | cons r rs =>
    rw [show mergeRanges (r :: rs) = mergeLoop r [] rs from rfl,
      mergeLoop_id rs r [] hdisj]
    simp

/-- Witness for C4 at the already-merged list `[(0, 1), (3, 4)]`. -/
theorem c4_witness :
    List.Pairwise (fun p q : Nat × Nat => p.1 ≤ q.1) [(0, 1), (3, 4)] ∧
    List.Chain' (fun p q : Nat × Nat => p.2 < q.1) [(0, 1), (3, 4)] ∧
    mergeRanges [(0, 1), (3, 4)] = [(0, 1), (3, 4)] :=
  ⟨by decide, by simp, c4_theorem _ (by decide) (by simp)⟩

/-- C8: the claim predicts that a frame range whose `end_idx` lies beyond
the last frame index is skipped, but `_create_motion_clip` only guards
against an empty frame list, `start_idx` out of bounds, and
`start_idx > end_idx`: on a one-frame list with range `(0, 5)` it writes a
clip (clamped to the existing frame) instead of skipping. -/
theorem c8_counterexample :
    createMotionClip ([0] : List Nat) 0 5 = some [0] := by
  decide

/-- C8 (amended): `_create_motion_clip` skips a clip — writing nothing and
leaving other pending clips unaffected — exactly when the frame list is
empty, `start_idx` is at or beyond the end of the frame list, or
`start_idx > end_idx`; otherwise it writes exactly the frames from
`start_idx` to `min(end_idx + 1, len(frames)) - 1`, so an `end_idx` beyond
the last frame index is clamped to the last frame rather than skipped. -/
theorem c8_theorem {α : Type} : ∀ (frames : List α) (s e : Nat),
    (createMotionClip frames s e = none ↔
      frames.length = 0 ∨ frames.length ≤ s ∨ e < s) ∧
    (∀ out, createMotionClip frames s e = some out →
      out = (frames.drop s).take (min (e + 1) frames.length - s)) := by
  intro frames s e
  constructor
  · unfold createMotionClip
    split <;> simp_all
  · intro out h
    unfold createMotionClip at h
    split at h
    · cases h
    · exact (Option.some.inj h).symm

/-- C9: with a configured rotation interval of 5 minutes, the
segment-bucket computation of `process_continuous_recording` maps
`10:02:00` and `10:04:59` to the same bucket, and maps `10:02:00` and
`10:05:00` to different buckets. -/
theorem c9_theorem :
    segmentBucket 5 ⟨10, 2, 0, 0⟩ = segmentBucket 5 ⟨10, 4, 59, 0⟩ ∧
    segmentBucket 5 ⟨10, 2, 0, 0⟩ ≠ segmentBucket 5 ⟨10, 5, 0, 0⟩ := by
  constructor
  · decide
  · decide

/-- C10: the motion detector keeps `len(frame_buffer) = len(motion_frames)
= frame_count` across every operation: `process_frame` appends one element
to each list and increments the counter together (then possibly hands off
and resets), `_process_current_segment` resets both lists and the counter
together, and the frame list and flag list handed to `process_segment`
always have equal length. -/
theorem c10_theorem {φ : Type} (s : DetState φ) (f : φ) (mo : Bool)
    (h : bufInv s) :
    bufInv (process_frame s f mo).1 ∧
    bufInv (processCurrentSegment s).1 ∧
    (∀ fs ms, (process_frame s f mo).2 = some (fs, ms) →
      fs.length = ms.length) := by
  obtain ⟨h1, h2⟩ := h
  refine ⟨?_, ?_, ?_⟩
  · simp only [process_frame]
    split
    · simp [processCurrentSegment, bufInv]
    · simp [bufInv]
      omega
  · simp [processCurrentSegment, bufInv]
  · intro fs ms hsome
    simp only [process_frame] at hsome
    split at hsome
    · simp only [processCurrentSegment, Option.some.injEq, Prod.mk.injEq] at hsome
      obtain ⟨hfs, hms⟩ := hsome
      subst hfs
      subst hms
      simp [h1]
    · simp at hsome

/-- Witness for C10 at an empty capacity-one detector state. -/
theorem c10_witness :
    bufInv demoDetState ∧
    (bufInv (process_frame demoDetState 5 true).1 ∧
      bufInv (processCurrentSegment demoDetState).1 ∧
      (∀ fs ms, (process_frame demoDetState 5 true).2 = some (fs, ms) →
        fs.length = ms.length)) :=
  ⟨⟨rfl, rfl⟩, c10_theorem demoDetState 5 true ⟨rfl, rfl⟩⟩

/-- C5: the claim predicts that a marker-valid but undecodable payload
mutates no state, but `update_frame` stores the raw payload in the frame
store and updates the device's `last_seen` and `status` before it attempts
to decode: on a registered device with an empty frame store, the frame
store changes. -/
theorem c5_counterexample :
    (update_frame 1 (fun _ => false) (fun r _ _ => r) (fun m _ _ => m)
      demoState "cam0" undecodablePayload).frames ≠ demoState.frames := by
  decide

/-- C5 (amended): for a registered device, a payload that carries the JPEG
start/end markers but is rejected by the codec is dropped by `update_frame`
with a logged warning before any recording or motion processing: the
continuous-recording state and the motion state are unchanged, but the
frame store entry is replaced by the payload and the device's `last_seen`
and `status` are updated (these mutations happen before the decode
attempt). -/
theorem c5_theorem {ρ μ : Type} (now : Nat) (decodable : List Nat → Bool)
    (procRec : ρ → String → List Nat → ρ)
    (procMotion : μ → String → List Nat → μ)
    (s : SysState ρ μ) (dev : String) (data : List Nat) (d : DeviceRec)
    (hstart : startsWithBytes data jpegStartMarker = true)
    (hend : endsWithBytes data jpegEndMarker = true)
    (hdev : s.devices.lookup dev = some d)
    (hdec : decodable data = false) :
    (update_frame now decodable procRec procMotion s dev data).recording =
      s.recording ∧
    (update_frame now decodable procRec procMotion s dev data).motion =
      s.motion ∧
    (update_frame now decodable procRec procMotion s dev data).frames =
      setEntry dev data s.frames ∧
    (update_frame now decodable procRec procMotion s dev data).devices =
      setEntry dev { d with last_seen := now, status := "online" }
        s.devices := by
  simp only [update_frame]
  rw [if_neg (by simp [hstart, hend])]
  simp only [hdev]
  rw [if_pos hdec]
  exact ⟨rfl, rfl, rfl, rfl⟩

/-- Witness for C5 (amended) at the demo state with an undecodable
marker-valid payload. -/
theorem c5_witness :
    startsWithBytes undecodablePayload jpegStartMarker = true ∧
    endsWithBytes undecodablePayload jpegEndMarker = true ∧
    demoState.devices.lookup "cam0" =
      some { last_seen := 0, status := "offline", motion_detection := false } ∧
    ((update_frame 1 (fun _ => false) (fun r _ _ => r) (fun m _ _ => m)
        demoState "cam0" undecodablePayload).recording = demoState.recording ∧
      (update_frame 1 (fun _ => false) (fun r _ _ => r) (fun m _ _ => m)
        demoState "cam0" undecodablePayload).motion = demoState.motion ∧
      (update_frame 1 (fun _ => false) (fun r _ _ => r) (fun m _ _ => m)
        demoState "cam0" undecodablePayload).frames =
        setEntry "cam0" undecodablePayload demoState.frames ∧
      (update_frame 1 (fun _ => false) (fun r _ _ => r) (fun m _ _ => m)
        demoState "cam0" undecodablePayload).devices =
        setEntry "cam0"
          { last_seen := 1, status := "online", motion_detection := false }
          demoState.devices) :=
  ⟨by decide, by decide, by decide,
    c5_theorem 1 (fun _ => false) (fun r _ _ => r) (fun m _ _ => m)
      demoState "cam0" undecodablePayload
      { last_seen := 0, status := "offline", motion_detection := false }
      (by decide) (by decide) (by decide) rfl⟩

/-- C6: in the raw single-frame upload path, a body that does not begin
with `FF D8` and end with `FF D9` emits no frame — the frame store is
unchanged — and the device's session is not aborted: the call returns one
of the two definitive error responses instead of raising.  (The converse
reading of the claim, "a frame is stored only if the markers are present",
is this statement's contrapositive.) -/
theorem c6_theorem {ρ μ : Type} (now : Nat) (decodable : List Nat → Bool)
    (procRec : ρ → String → List Nat → ρ)
    (procMotion : μ → String → List Nat → μ)
    (s : SysState ρ μ) (dev : String) (raw : List Nat)
    (h : ¬(startsWithBytes raw jpegStartMarker = true ∧
      endsWithBytes raw jpegEndMarker = true)) :
    (uploadRawJpeg now decodable procRec procMotion s dev raw).1.frames =
      s.frames ∧
    ((uploadRawJpeg now decodable procRec procMotion s dev raw).2 =
        UploadResp.invalidData ∨
      (uploadRawJpeg now decodable procRec procMotion s dev raw).2 =
        UploadResp.markerError) := by
  simp only [uploadRawJpeg]
  by_cases hlen : raw.length < 2
  · rw [if_pos hlen]
    exact ⟨rfl, Or.inl rfl⟩
  · rw [if_neg hlen, if_neg h]
    exact ⟨rfl, Or.inr rfl⟩

/-- Witness for C6 at a marker-less three-byte body. -/
theorem c6_witness :
    ¬(startsWithBytes [1, 2, 3] jpegStartMarker = true ∧
      endsWithBytes [1, 2, 3] jpegEndMarker = true) ∧
    ((uploadRawJpeg 1 (fun _ => true) (fun r _ _ => r) (fun m _ _ => m)
        demoState "cam0" [1, 2, 3]).1.frames = demoState.frames ∧
      ((uploadRawJpeg 1 (fun _ => true) (fun r _ _ => r) (fun m _ _ => m)
          demoState "cam0" [1, 2, 3]).2 = UploadResp.invalidData ∨
        (uploadRawJpeg 1 (fun _ => true) (fun r _ _ => r) (fun m _ _ => m)
          demoState "cam0" [1, 2, 3]).2 = UploadResp.markerError)) :=
  ⟨by decide,
    c6_theorem 1 (fun _ => true) (fun r _ _ => r) (fun m _ _ => m)
      demoState "cam0" [1, 2, 3] (by decide)⟩

/-- A successful `find` returns a match that no earlier index has. -/
theorem findAux_some (pat : List Nat) :
    ∀ (ys : List Nat) (i j : Nat), findAux pat ys i = some j →
      i ≤ j ∧ (ys.drop (j - i)).take pat.length = pat ∧
      ∀ k < j - i, (ys.drop k).take pat.length ≠ pat := by
  intro ys
  induction ys with
  | nil => intro i j h; simp [findAux] at h
  | cons y t ih =>
    intro i j h
    rw [findAux] at h
    by_cases hm : (y :: t).take pat.length = pat
    · rw [if_pos hm] at h
      have hij : i = j := Option.some.inj h
      subst hij
      refine ⟨Nat.le_refl i, ?_, ?_⟩
      · simpa [Nat.sub_self] using hm
      · intro k hk
        omega
    · rw [if_neg hm] at h
      obtain ⟨h1, h2, h3⟩ := ih (i + 1) j h
      refine ⟨by omega, ?_, ?_⟩
      · have he : j - i = (j - (i + 1)) + 1 := by omega
        rw [he]
        simpa using h2
      · intro k hk
        cases k with
        | zero => simpa using hm
        | succ k1 =>
          have hk1 : k1 < j - (i + 1) := by omega
          simpa using h3 k1 hk1

/-- A failed `find` means the pattern matches nowhere. -/
theorem findAux_none (pat : List Nat) (hpat : pat ≠ []) :
    ∀ (ys : List Nat) (i : Nat), findAux pat ys i = none →
      ∀ k, (ys.drop k).take pat.length ≠ pat := by
  intro ys
  induction ys with
  | nil =>
    intro i _ k
    simp only [List.drop_nil, List.take_nil]
    exact fun he => hpat he.symm
  | cons y t ih =>
    intro i h k
    rw [findAux] at h
    by_cases hm : (y :: t).take pat.length = pat
    · rw [if_pos hm] at h
      cases h
    · rw [if_neg hm] at h
      cases k with
      | zero => simpa using hm
      | succ k1 => simpa using ih (i + 1) h k1

/-- A failed `rfind` means the pattern matches nowhere. -/
theorem rfindAux_none (pat : List Nat) (hpat : pat ≠ []) :
    ∀ (ys : List Nat) (i : Nat), rfindAux pat ys i = none →
      ∀ k, (ys.drop k).take pat.length ≠ pat := by
  intro ys
  induction ys with
  | nil =>
    intro i _ k
    simp only [List.drop_nil, List.take_nil]
    exact fun he => hpat he.symm
  | cons y t ih =>
    intro i h k
    rw [rfindAux] at h
    split at h
    · cases h
    · by_cases hm : (y :: t).take pat.length = pat
      · rw [if_pos hm] at h
        cases h
      · cases k with
        | zero => simpa using hm
        | succ k1 =>
          rename_i heq
          simpa using ih (i + 1) heq k1

/-- A successful `rfind` returns a match that no later index has. -/
theorem rfindAux_some (pat : List Nat) (hpat : pat ≠ []) :
    ∀ (ys : List Nat) (i j : Nat), rfindAux pat ys i = some j →
      i ≤ j ∧ (ys.drop (j - i)).take pat.length = pat ∧
      ∀ k, (ys.drop k).take pat.length = pat → k ≤ j - i := by
  intro ys
  induction ys with
  | nil => intro i j h; simp [rfindAux] at h
  | cons y t ih =>
    intro i j h
    rw [rfindAux] at h
    split at h
    · rename_i j1 heq
      have hj : j1 = j := Option.some.inj h
      subst hj
      obtain ⟨h1, h2, h3⟩ := ih (i + 1) j1 heq
      refine ⟨by omega, ?_, ?_⟩
      · have he : j1 - i = (j1 - (i + 1)) + 1 := by omega
        rw [he]
        simpa using h2
      · intro k hk
        cases k with
        | zero => omega
        | succ k1 =>
          have := h3 k1 (by simpa using hk)
          omega
    · rename_i heq
      by_cases hm : (y :: t).take pat.length = pat
      · rw [if_pos hm] at h
        have hij : i = j := Option.some.inj h
        subst hij
        refine ⟨Nat.le_refl i, by simpa [Nat.sub_self] using hm, ?_⟩
        intro k hk
        cases k with
        | zero => omega
        | succ k1 =>
          exact absurd (by simpa using hk)
            (rfindAux_none pat hpat t (i + 1) heq k1)
      · rw [if_neg hm] at h
        cases h

/-- `pyFind` returns the first occurrence of the pattern. -/
theorem pyFind_first {xs pat : List Nat} {j : Nat}
    (h : pyFind xs pat = some j) : FirstOccAt xs pat j := by
  obtain ⟨h1, h2, h3⟩ := findAux_some pat xs 0 j h
  exact ⟨by simpa using h2, fun k hk => by simpa using h3 k (by omega)⟩

/-- When `pyFind` fails the pattern occurs nowhere. -/
theorem pyFind_cover {xs pat : List Nat} (hpat : pat ≠ [])
    (h : pyFind xs pat = none) : ∀ k, ¬ MatchesAt xs pat k :=
  fun k => findAux_none pat hpat xs 0 h k

/-- `pyRfind` returns the last occurrence of the pattern. -/
theorem pyRfind_last {xs pat : List Nat} {j : Nat} (hpat : pat ≠ [])
    (h : pyRfind xs pat = some j) : LastOccAt xs pat j := by
  obtain ⟨h1, h2, h3⟩ := rfindAux_some pat hpat xs 0 j h
  exact ⟨by simpa using h2, fun k hk => by have := h3 k hk; omega⟩

/-- When `pyRfind` fails the pattern occurs nowhere. -/
theorem pyRfind_cover {xs pat : List Nat} (hpat : pat ≠ [])
    (h : pyRfind xs pat = none) : ∀ k, ¬ MatchesAt xs pat k :=
  fun k => rfindAux_none pat hpat xs 0 h k

/-- First occurrences are unique. -/
theorem firstOccAt_unique {xs pat : List Nat} {i j : Nat}
    (h1 : FirstOccAt xs pat i) (h2 : FirstOccAt xs pat j) : i = j := by
  rcases Nat.lt_trichotomy i j with h | h | h
  · exact absurd h1.1 (h2.2 i h)
  · exact h
  · exact absurd h2.1 (h1.2 j h)

/-- Last occurrences are unique. -/
theorem lastOccAt_unique {xs pat : List Nat} {i j : Nat}
    (h1 : LastOccAt xs pat i) (h2 : LastOccAt xs pat j) : i = j :=
  Nat.le_antisymm (h2.2 i h1.1) (h1.2 j h2.1)

/-- C7: in chunked multipart framing, a carved part produces a payload iff
the part's bytes (those following the header terminator) contain a first
occurrence of `FF D8` and a last occurrence of `FF D9` with the latter
strictly after the former, and then the payload passed onward is exactly
the byte range from that first start marker to that last end marker,
inclusive of the two end-marker bytes; in every other case (either marker
absent, or the last end marker not after the first start marker) no frame
is emitted for the part. -/
theorem c7_theorem : ∀ (frame_data p : List Nat),
    processPart frame_data = some p ↔
      ∃ js je, FirstOccAt frame_data jpegStartMarker js ∧
        LastOccAt frame_data jpegEndMarker je ∧ js < je ∧
        p = (frame_data.drop js).take (je + 2 - js) := by
  intro fd p
  constructor
  · intro h
    simp only [processPart] at h
    split at h
    · rename_i js je heq1 heq2
      split at h
      · rename_i hlt
        exact ⟨js, je, pyFind_first heq1, pyRfind_last (by decide) heq2,
          hlt, (Option.some.inj h).symm⟩
      · cases h
    · cases h
  · rintro ⟨js, je, hfo, hlo, hlt, rfl⟩
    have hf : pyFind fd jpegStartMarker = some js := by
      cases hfs : pyFind fd jpegStartMarker with
      | none => exact absurd hfo.1 (pyFind_cover (by decide) hfs js)
      | some j0 =>
        exact congrArg some (firstOccAt_unique (pyFind_first hfs) hfo)
    have hr : pyRfind fd jpegEndMarker = some je := by
      cases hrs : pyRfind fd jpegEndMarker with
      | none => exact absurd hlo.1 (pyRfind_cover (by decide) hrs je)
      | some j0 =>
        exact congrArg some (lastOccAt_unique (pyRfind_last (by decide) hrs) hlo)
    simp only [processPart, hf, hr]
    rw [if_pos hlt]

end SentinelNet
